import Mathlib

/-
Verification of the paginated listing engine (the Listing class) of the snoowrap
repository, shallowly embedded in Lean 4.

Modelling conventions, each justified by the JavaScript source:

* Items are opaque; an element of a Listing's array part is either an ordinary
  content item (carrying an opaque string payload) or a reference to a MoreNode
  continuation object (the source detects the latter with an instanceof check).
* MoreNode objects live in an explicit store (an arena indexed by allocation
  order), because the source mutates them in place (the splice in
  _fetch_more_comments) and clones them (_more._clone()); the store makes the
  aliasing between a Listing and its clone observable.
* JavaScript cursor values distinguish undefined from null from a string; a
  cursor is modelled as Option (Option String): none is undefined, some none is
  null, some (some s) is the string s.
* The source URI is modelled as Option String with none for "absent"; the
  JavaScript falsiness check on the URI identifies the empty string with
  absence, and the model identifies the two (URIs are assumed nonempty).
* The _transform field (default: the identity) and the _ac request context are
  not part of the state: the environment function below plays the role of the
  already-composed request-and-transform pipeline, and _ac is shared by
  reference and never cloned, exactly as in the source.
* Network activity is modelled by an environment mapping a request record to a
  response page or a rejection, plus an explicit log of issued requests, so
  that "zero network calls" is a statement about the log.
* The recursion in _fetch_more_regular is not structurally terminating in the
  source (a live source can recurse forever); the embedding uses a fuel
  parameter consumed once per page request, with an outOfFuel outcome standing
  for nontermination.
-/

namespace Snoowrap

/-- A MoreNode holds the ids of not-yet-fetched comments (more.js `children`). -/
structure MoreNode where
  children : List String
deriving DecidableEq, Repr

/-- A store index naming one MoreNode object. -/
abbrev MoreRef := Nat

/-- The arena of MoreNode objects, indexed by allocation order. -/
abbrev Store := List MoreNode

/-- Dereference a MoreNode; out-of-range reads yield an empty node. -/
def storeRead (σ : Store) (r : MoreRef) : MoreNode := σ.getD r ⟨[]⟩

/-- Overwrite one MoreNode cell in place. -/
def storeWrite (σ : Store) (r : MoreRef) (m : MoreNode) : Store := σ.set r m

/-- A JavaScript cursor value: none = undefined, some none = null,
some (some s) = the string s. -/
abbrev Cursor := Option (Option String)

/-- One element of a Listing's array part: an opaque content item, or a
reference to a MoreNode continuation object (what `instanceof more` detects). -/
inductive Elem where
  | item (payload : String)
  | more (ref : MoreRef)
deriving DecidableEq, Repr

/-- Whether an element is a MoreNode continuation placeholder. -/
def Elem.isMoreNode : Elem → Bool
  | .more _ => true
  | .item _ => false

/-- The state of a Listing: the array part plus the fields of INTERNAL_DEFAULTS.
Field defaults are the values of INTERNAL_DEFAULTS in the source. -/
structure Listing where
  items : List Elem
  _query : List (String × String) := []
  _show : String := "all"
  _method : String := "get"
  _is_comment_list : Bool := false
  _limit : Option Int := none
  _link_id : Option String := none
  _uri : Option String := none
  _more : Option MoreRef := none
  after : Cursor := none
  before : Cursor := none
deriving DecidableEq, Repr

/-- The options record accepted by the Listing constructor. A field holding
none is an absent (or undefined) property, which `_.defaults` replaces with the
corresponding INTERNAL_DEFAULTS value; `children` defaults to the empty list
(`options.children || []`). -/
structure ListingOptions where
  children : List Elem := []
  _query : Option (List (String × String)) := none
  _show : Option String := none
  _method : Option String := none
  _is_comment_list : Option Bool := none
  _limit : Option Int := none
  _link_id : Option String := none
  _uri : Option String := none
  _more : Option MoreRef := none
  after : Cursor := none
  before : Cursor := none
deriving DecidableEq, Repr

/-- The Listing constructor: assign the children as the array part, fill the
INTERNAL_DEFAULTS fields from the options, and if the last child is a MoreNode
instance, pop it, store it as `_more` and set `_is_comment_list`. -/
def Listing.construct (o : ListingOptions) : Listing :=
  let base : Listing :=
    { items := o.children
      _query := o._query.getD []
      _show := o._show.getD "all"
      _method := o._method.getD "get"
      _is_comment_list := o._is_comment_list.getD false
      _limit := o._limit
      _link_id := o._link_id
      _uri := o._uri
      _more := o._more
      after := o.after
      before := o.before }
  match o.children.getLast? with
  | some (Elem.more r) =>
      { base with items := o.children.dropLast, _more := some r, _is_comment_list := true }
  | _ => base

/-- The is_finished getter: with a more node present, finished means its
children are exhausted; otherwise finished means the URI is absent or both
cursors are strictly null. -/
def Listing.is_finished (σ : Store) (l : Listing) : Bool :=
  match l._more with
  | some r => (storeRead σ r).children.isEmpty
  | none => l._uri.isNone || (l.after == some none && l.before == some none)

/-- Modelled from the spec: more.js is not under src/. Its _clone produces a
fresh MoreNode carrying the same pending children ids (the only MoreNode state
the spec gives it). -/
def MoreNode._clone (m : MoreNode) : MoreNode := ⟨m.children⟩

/-- Listing._clone: pick the INTERNAL_DEFAULTS fields of this listing, deep
clone the more node into a freshly allocated cell, take the array part as the
children, and run the constructor on the resulting options. -/
def Listing._clone (σ : Store) (l : Listing) : Store × Listing :=
  match l._more with
  | some r =>
      (σ ++ [MoreNode._clone (storeRead σ r)],
       Listing.construct
         { children := l.items, _query := some l._query, _show := some l._show
           _method := some l._method, _is_comment_list := some l._is_comment_list
           _limit := l._limit, _link_id := l._link_id, _uri := l._uri
           _more := some σ.length, after := l.after, before := l.before })
  | none =>
      (σ,
       Listing.construct
         { children := l.items, _query := some l._query, _show := some l._show
           _method := some l._method, _is_comment_list := some l._is_comment_list
           _limit := l._limit, _link_id := l._link_id, _uri := l._uri
           _more := none, after := l.after, before := l.before })

/-- Well-formedness of the array part: it carries no continuation placeholder.
Every listing the system builds from real pages satisfies this, because the
constructor of the response listing strips the trailing placeholder. -/
def Listing.itemsWf (l : Listing) : Bool := l.items.all (fun e => !(Elem.isMoreNode e))

/-- The observable content of a listing's more node: the pending ids behind its
reference, if any. -/
def moreView (σ : Store) (l : Listing) : Option (List String) :=
  l._more.map (fun r => (storeRead σ r).children)

/-- One page request as _fetch_more_regular issues it: the HTTP verb `_method`,
the `_uri`, and the query string holding the current cursors, the computed
limit, the `_show` value, and the stored extra `_query` parameters (merged
without overriding the four explicit keys, as `_.defaults` does). -/
structure Request where
  method : String
  uri : Option String
  after : Cursor
  before : Cursor
  limit : Int
  show' : String
  query : List (String × String)
deriving DecidableEq, Repr

/-- A page response after `_transform`: its array part and its cursors. The
length of a response is the length of its array part. -/
structure Page where
  items : List Elem
  after : Cursor
  before : Cursor
deriving DecidableEq, Repr

/-- One network event: a regular page request, or a bulk fetch of pending
comment ids delegated to the more node. -/
inductive ReqEvent where
  | page (r : Request)
  | bulk (ids : List String) (skip_replies : Bool)
deriving DecidableEq, Repr

/-- The outcome of a fetch call: a resulting listing, a synchronously thrown
InvalidMethodCallError, a propagated rejection of the underlying request, or
fuel exhaustion (standing for a nonterminating recursion). -/
inductive FetchResult where
  | ok (res : Listing)
  | invalidCall (msg : String)
  | transportError (msg : String)
  | outOfFuel
deriving DecidableEq, Repr

/-- The network environment: each page request either resolves to a page or
rejects. This is the composition of the `_ac` request method with the
listing's `_transform` (identity by default). -/
def Env : Type := Request → Except String Page

/-- The parsed options of fetch_more: `amount` is none when the caller passed
a missing or non-numeric amount, and skip_replies defaults to false. -/
structure FetchOptions where
  amount : Option Int := none
  skip_replies : Bool := false
deriving DecidableEq, Repr

/-- Modelled from the spec: more.js is not under src/. Per the spec a MoreNode
resolves some prefix of its pending children ids, bounded by the requested
amount, into full items, one item per resolved id; skip_replies only selects
the remote endpoint strategy and does not change the accounting. -/
def MoreNode.fetch_more (m : MoreNode) (amount : Int) (_skip_replies : Bool) : List Elem :=
  (m.children.take amount.toNat).map Elem.item

/-- Listing._fetch_more_comments: clone this listing, delegate to the more
node's own fetch_more, append the resolved items to the clone, and splice the
first (cloned.length - this.length) ids out of the clone's more node. -/
def Listing._fetch_more_comments (σ : Store) (l : Listing) (amount : Int) (skip_replies : Bool) :
    Store × FetchResult × List ReqEvent :=
  let p := Listing._clone σ l
  match l._more with
  | none => (p.1, .ok p.2, [])
  | some r =>
      let m := storeRead σ r
      let fetched := MoreNode.fetch_more m amount skip_replies
      let cloned : Listing := { p.2 with items := p.2.items ++ fetched }
      let removed := cloned.items.length - l.items.length
      let σ₂ :=
        match cloned._more with
        | some rc => storeWrite p.1 rc ⟨((storeRead p.1 rc).children).drop removed⟩
        | none => p.1
      (σ₂, .ok cloned, [ReqEvent.bulk (m.children.take amount.toNat) skip_replies])

/-- The request _fetch_more_regular builds: the stored verb, uri, show and
query, the current cursors, and the computed limit. -/
def regularRequest (l : Listing) (limit : Int) : Request :=
  { method := l._method, uri := l._uri, after := l.after, before := l.before
    limit := limit, show' := l._show, query := l._query }

/-- The synchronous part of fetch_more once the amount is known to be numeric:
a nonpositive amount or a finished listing short-circuits to a clone with no
network event, and a listing with a more node delegates to
_fetch_more_comments; a regular listing (none) needs a page request. -/
def Listing.fetchMoreSync (σ : Store) (l : Listing) (amount : Int) (skip_replies : Bool) :
    Option (Store × FetchResult × List ReqEvent) :=
  if amount ≤ 0 ∨ Listing.is_finished σ l = true then
    let p := Listing._clone σ l
    some (p.1, .ok p.2, [])
  else
    match l._more with
    | some _ => some (Listing._fetch_more_comments σ l amount skip_replies)
    | none => none

/-- The behavior of fetch_more on a numeric amount, and the recursion inside
_fetch_more_regular: run the synchronous part; when a page is needed, request
amount items (plus 1 extra for a comment list paginated regularly), append the
page to a clone, take the page's cursors, and recurse with the residual
amount. Fuel is consumed once per page request; running out of fuel stands for
a recursion that never terminates. -/
def Listing.fetchMoreGo (env : Env) : Nat → Store → Listing → Int → Bool →
    Store × FetchResult × List ReqEvent
  | 0, σ, l, amount, skip_replies =>
    match Listing.fetchMoreSync σ l amount skip_replies with
    | some out => out
    | none => (σ, .outOfFuel, [])
  | Nat.succ fuel, σ, l, amount, skip_replies =>
    match Listing.fetchMoreSync σ l amount skip_replies with
    | some out => out
    | none =>
      let req : Request :=
        regularRequest l (if l._is_comment_list then amount + 1 else amount)
      match env req with
      | .error e => (σ, .transportError e, [ReqEvent.page req])
      | .ok response =>
        let p := Listing._clone σ l
        let cloned : Listing :=
          { p.2 with
            items := p.2.items ++ response.items
            before := response.before
            after := response.after }
        let next :=
          Listing.fetchMoreGo env fuel p.1 cloned (amount - response.items.length) skip_replies
        (next.1, next.2.1, ReqEvent.page req :: next.2.2)

/-- Listing._fetch_more_regular: issue one page request with the current
cursors and the computed limit, append the transformed page to a clone, update
the clone's cursors, and fetch the residual amount through fetch_more. -/
def Listing._fetch_more_regular (env : Env) (fuel : Nat) (σ : Store) (l : Listing)
    (amount : Int) (skip_replies : Bool) : Store × FetchResult × List ReqEvent :=
  let req : Request :=
    regularRequest l (if l._is_comment_list then amount + 1 else amount)
  match env req with
  | .error e => (σ, .transportError e, [ReqEvent.page req])
  | .ok response =>
    let p := Listing._clone σ l
    let cloned : Listing :=
      { p.2 with
        items := p.2.items ++ response.items
        before := response.before
        after := response.after }
    let next :=
      Listing.fetchMoreGo env fuel p.1 cloned (amount - response.items.length) skip_replies
    (next.1, next.2.1, ReqEvent.page req :: next.2.2)

/-- Listing.fetch_more: throw InvalidMethodCallError synchronously when the
amount is missing or non-numeric, otherwise run the short-circuit test and
dispatch to the comment-tree or regular pagination algorithm. -/
def Listing.fetch_more (env : Env) (fuel : Nat) (σ : Store) (l : Listing) (opts : FetchOptions) :
    Store × FetchResult × List ReqEvent :=
  match opts.amount with
  | none => (σ, .invalidCall "Failed to fetch Listing. (No amount specified.)", [])
  | some amount => Listing.fetchMoreGo env fuel σ l amount opts.skip_replies

/-- Listing.fetch_until: throw InvalidMethodCallError synchronously when the
length is missing or non-numeric, otherwise fetch_more with the residual
amount, the target length minus the current length. -/
def Listing.fetch_until (env : Env) (fuel : Nat) (σ : Store) (l : Listing)
    (len : Option Int) (skip_replies : Bool) : Store × FetchResult × List ReqEvent :=
  match len with
  | none => (σ, .invalidCall "Failed to fetch Listing. (No amount specified.)", [])
  | some n =>
      Listing.fetch_more env fuel σ l
        { amount := some (n - (l.items.length : Int)), skip_replies := skip_replies }

/-- An environment is well formed when pages carry only ordinary items: the
response listing's constructor has already stripped any trailing continuation
placeholder into its own more node before the page reaches this algorithm. -/
def EnvWf (env : Env) : Prop :=
  ∀ r p, env r = .ok p → ∀ e ∈ p.items, Elem.isMoreNode e = false

/-- An environment honors the requested limit when a resolved page never
carries more items than the request's limit. -/
def EnvHonorsLimit (env : Env) : Prop :=
  ∀ r p, env r = .ok p → (p.items.length : Int) ≤ r.limit

/-! ## Concrete inputs used to separate or witness individual claims -/

/-- A listing with a nonempty more node and an absent URI (a typical comment
tree paginated purely through its more node). -/
def listingMoreNoUri : Listing := { items := [], _more := some 0 }

/-- A store holding one MoreNode with one pending id. -/
def storeOneMore : Store := [⟨["id1"]⟩]

/-- An empty comment-list listing paginated regularly (it has a URI, the
comment-list flag, and no more node). -/
def listingCommentRegular : Listing :=
  { items := [], _uri := some "u", _is_comment_list := true }

/-- An environment returning a two-item exhausted page whenever at least two
items are requested, and rejecting smaller requests; it honors every limit. -/
def envTwoItems : Env := fun r =>
  if r.limit < 2 then .error "unused"
  else .ok { items := [Elem.item "a", Elem.item "b"], after := some none, before := some none }

/-- An empty regular listing with a URI. -/
def listingRegular : Listing := { items := [], _uri := some "u" }

/-- An environment returning a one-item exhausted page whenever at least one
item is requested, and rejecting nonpositive requests; it honors every limit. -/
def envOneItem : Env := fun r =>
  if r.limit < 1 then .error "unused"
  else .ok { items := [Elem.item "a"], after := some none, before := some none }

/-- An environment that rejects every request. -/
def envReject : Env := fun _ => .error "boom"

/-- A one-item listing whose more node holds three pending ids, with the store
holding that node. -/
def listingThreeIds : Listing :=
  { items := [Elem.item "x"], _more := some 0, _is_comment_list := true }

/-- The store for listingThreeIds. -/
def storeThreeIds : Store := [⟨["i1", "i2", "i3"]⟩]

/-- Constructor options whose children end in a continuation placeholder. -/
def optionsTrailingMore : ListingOptions :=
  { children := [Elem.item "a", Elem.more 3] }

/-- Constructor options with a continuation placeholder in a non-final
position. -/
def optionsLeadingMore : ListingOptions :=
  { children := [Elem.more 0, Elem.item "a"] }

/-- A finished regular listing: both cursors are null. -/
def listingDone : Listing :=
  { items := [Elem.item "x"], _uri := some "u", after := some none, before := some none }

/-- A fresh listing with a URI and both cursors undefined. -/
def listingFresh : Listing := { items := [], _uri := some "u" }

/-- The listing produced by one successful one-item exhausted fetch on
listingRegular. -/
def resultOneFetch : Listing :=
  { items := [Elem.item "a"], _uri := some "u", after := some none, before := some none }

/-- The listing produced by fetch_more(1) on listingCommentRegular against
envTwoItems: both returned items are kept. -/
def resultTwoItems : Listing :=
  { items := [Elem.item "a", Elem.item "b"], _uri := some "u", _is_comment_list := true
    after := some none, before := some none }

/-! ## Basic lemmas about the store and well formed listings -/

theorem storeRead_append_lt (σ : Store) (c : MoreNode) (i : Nat) (h : i < σ.length) :
    storeRead (σ ++ [c]) i = storeRead σ i := by
  simp [storeRead, List.getD, List.getElem?_append_left h]

theorem storeRead_append_self (σ : Store) (c : MoreNode) :
    storeRead (σ ++ [c]) σ.length = c := by
  simp [storeRead, List.getD]

theorem storeWrite_append_self (σ : Store) (c m : MoreNode) :
    storeWrite (σ ++ [c]) σ.length m = σ ++ [m] := by
  induction σ with
  | nil => rfl
  | cons x xs ih => simp [storeWrite, List.set] at ih ⊢

theorem itemsWf_not_getLast (l : Listing) (hw : Listing.itemsWf l = true) (r : MoreRef) :
    l.items.getLast? ≠ some (Elem.more r) := by
  intro h
  have hmem : Elem.more r ∈ l.items := List.mem_of_mem_getLast? h
  have := List.all_eq_true.mp hw _ hmem
  simp [Elem.isMoreNode] at this

/-- A clone of a well formed listing restores every field; the only change is
that the more node, when present, now lives in a freshly allocated cell holding
the same children. -/
theorem clone_eq (σ : Store) (l : Listing) (hw : Listing.itemsWf l = true) :
    Listing._clone σ l =
      ((match l._more with | none => σ | some r => σ ++ [storeRead σ r]),
       { l with _more := l._more.map fun _ => σ.length }) := by
  have hlast : ∀ r : MoreRef, l.items.getLast? ≠ some (Elem.more r) := itemsWf_not_getLast l hw
  cases hm : l._more with
  | none =>
      simp only [Listing._clone, hm, Listing.construct]
      cases hl : l.items.getLast? with
      | none => simp [hl, Listing.construct]
      | some e =>
          cases e with
          | item s => simp [hl]
          | more r => exact absurd hl (hlast r)
  | some r =>
      simp only [Listing._clone, hm, Listing.construct, MoreNode._clone]
      cases hl : l.items.getLast? with
      | none => simp [hl]
      | some e =>
          cases e with
          | item s => simp [hl]
          | more r' => exact absurd hl (hlast r')

/-- The synchronous part at a short-circuit: a nonpositive amount or a
finished listing yields a clone and no network event. -/
theorem fetchMoreSync_noop (σ : Store) (l : Listing) (amount : Int) (skip : Bool)
    (h : amount ≤ 0 ∨ Listing.is_finished σ l = true) :
    Listing.fetchMoreSync σ l amount skip =
      some ((Listing._clone σ l).1, .ok (Listing._clone σ l).2, []) := by
  unfold Listing.fetchMoreSync
  rw [if_pos h]

/-- The synchronous part dispatches to _fetch_more_comments when a more node
is present and no short-circuit applies. -/
theorem fetchMoreSync_comments (σ : Store) (l : Listing) (amount : Int) (skip : Bool)
    (r : MoreRef) (h : ¬(amount ≤ 0 ∨ Listing.is_finished σ l = true)) (hm : l._more = some r) :
    Listing.fetchMoreSync σ l amount skip =
      some (Listing._fetch_more_comments σ l amount skip) := by
  unfold Listing.fetchMoreSync
  rw [if_neg h, hm]

/-- The synchronous part defers to the regular algorithm when no more node is
present and no short-circuit applies. -/
theorem fetchMoreSync_net (σ : Store) (l : Listing) (amount : Int) (skip : Bool)
    (h : ¬(amount ≤ 0 ∨ Listing.is_finished σ l = true)) (hm : l._more = none) :
    Listing.fetchMoreSync σ l amount skip = none := by
  unfold Listing.fetchMoreSync
  rw [if_neg h, hm]

/-- The short-circuit: a nonpositive amount or a finished listing yields a
clone and no network events, at any fuel. -/
theorem fetchMoreGo_noop (env : Env) (fuel : Nat) (σ : Store) (l : Listing) (amount : Int)
    (skip : Bool) (h : amount ≤ 0 ∨ Listing.is_finished σ l = true) :
    Listing.fetchMoreGo env fuel σ l amount skip =
      ((Listing._clone σ l).1, .ok (Listing._clone σ l).2, []) := by
  cases fuel <;> simp [Listing.fetchMoreGo, fetchMoreSync_noop σ l amount skip h]

/-- The comment-tree step in closed form, for a well formed listing with a
more node: the resolved prefix is appended, the clone's freshly allocated more
cell is truncated by the number of appended items, and one bulk fetch is
logged. -/
theorem fetch_more_comments_eq (σ : Store) (l : Listing) (amount : Int) (skip : Bool)
    (r : MoreRef) (hw : Listing.itemsWf l = true) (hm : l._more = some r) :
    Listing._fetch_more_comments σ l amount skip =
      (σ ++ [⟨((storeRead σ r).children).drop
                ((storeRead σ r).children.take amount.toNat).length⟩],
       .ok { l with
             items := l.items ++ ((storeRead σ r).children.take amount.toNat).map Elem.item
             _more := some σ.length },
       [ReqEvent.bulk ((storeRead σ r).children.take amount.toNat) skip]) := by
  unfold Listing._fetch_more_comments
  rw [clone_eq σ l hw]
  have hlen : (l.items ++ ((storeRead σ r).children.take amount.toNat).map Elem.item).length
      - l.items.length = ((storeRead σ r).children.take amount.toNat).length := by
    simp
  simp only [hm, MoreNode.fetch_more, Option.map_some', hlen, storeRead_append_self,
    storeWrite_append_self]

/-- The extra item a comment list paginated regularly may over-fetch. -/
def extraSlack (l : Listing) : Int :=
  if l._is_comment_list = true ∧ l._more = none then 1 else 0

/-- A clone neither gains nor loses finishedness. -/
theorem clone_is_finished (σ : Store) (l : Listing) (hw : Listing.itemsWf l = true) :
    Listing.is_finished (Listing._clone σ l).1 (Listing._clone σ l).2 =
      Listing.is_finished σ l := by
  rw [clone_eq σ l hw]
  cases hm : l._more with
  | none => simp [Listing.is_finished, hm]
  | some r => simp [Listing.is_finished, hm, storeRead_append_self]

/-- Appending placeholder-free elements preserves well-formedness of the
array part. -/
theorem elemsWf_append (l1 l2 : List Elem)
    (h1 : l1.all (fun e => !(Elem.isMoreNode e)) = true)
    (h2 : ∀ e ∈ l2, Elem.isMoreNode e = false) :
    (l1 ++ l2).all (fun e => !(Elem.isMoreNode e)) = true := by
  rw [List.all_append, h1]
  simp only [Bool.true_and, List.all_eq_true]
  intro e he
  simp [h2 e he]

/-- fetchMoreGo dispatches to _fetch_more_comments whenever a more node is
present and no short-circuit applies, at any fuel. -/
theorem fetchMoreGo_comments (env : Env) (fuel : Nat) (σ : Store) (l : Listing) (amount : Int)
    (skip : Bool) (r : MoreRef) (h : ¬(amount ≤ 0 ∨ Listing.is_finished σ l = true))
    (hm : l._more = some r) :
    Listing.fetchMoreGo env fuel σ l amount skip =
      Listing._fetch_more_comments σ l amount skip := by
  cases fuel <;> simp [Listing.fetchMoreGo, fetchMoreSync_comments σ l amount skip r h hm]

/-- fetchMoreGo at zero fuel on the regular path: out of fuel before any
request. -/
theorem fetchMoreGo_zero_net (env : Env) (σ : Store) (l : Listing) (amount : Int)
    (skip : Bool) (h : ¬(amount ≤ 0 ∨ Listing.is_finished σ l = true)) (hm : l._more = none) :
    Listing.fetchMoreGo env 0 σ l amount skip = (σ, .outOfFuel, []) := by
  simp [Listing.fetchMoreGo, fetchMoreSync_net σ l amount skip h hm]

/-- fetchMoreGo at positive fuel on the regular path: one page request, then
the recursion on the extended clone. -/
theorem fetchMoreGo_succ_net (env : Env) (fuel : Nat) (σ : Store) (l : Listing) (amount : Int)
    (skip : Bool) (h : ¬(amount ≤ 0 ∨ Listing.is_finished σ l = true)) (hm : l._more = none) :
    Listing.fetchMoreGo env (fuel + 1) σ l amount skip =
      (match env (regularRequest l (if l._is_comment_list then amount + 1 else amount)) with
       | .error e =>
           (σ, .transportError e,
            [ReqEvent.page (regularRequest l (if l._is_comment_list then amount + 1 else amount))])
       | .ok response =>
           let p := Listing._clone σ l
           let cloned : Listing :=
             { p.2 with
               items := p.2.items ++ response.items
               before := response.before
               after := response.after }
           let next :=
             Listing.fetchMoreGo env fuel p.1 cloned (amount - response.items.length) skip
           (next.1, next.2.1,
            ReqEvent.page (regularRequest l (if l._is_comment_list then amount + 1 else amount))
              :: next.2.2)) := by
  simp [Listing.fetchMoreGo, fetchMoreSync_net σ l amount skip h hm]

/-- All four conclusions of the master lemma in the short-circuit case. -/
theorem go_main_noop (env : Env) (fuel : Nat) (σ : Store) (l : Listing) (amount : Int)
    (skip : Bool) (hw : Listing.itemsWf l = true)
    (h : amount ≤ 0 ∨ Listing.is_finished σ l = true) :
    (∀ i, i < σ.length →
      storeRead (Listing.fetchMoreGo env fuel σ l amount skip).1 i = storeRead σ i) ∧
    (∀ res, (Listing.fetchMoreGo env fuel σ l amount skip).2.1 = FetchResult.ok res →
      (∃ t, res.items = l.items ++ t) ∧ Listing.itemsWf res = true ∧
      (EnvHonorsLimit env →
        (res.items.length : Int) - l.items.length ≤
          (if amount ≤ 0 then 0 else amount + extraSlack l)) ∧
      ((res.items.length : Int) - l.items.length < amount →
        Listing.is_finished (Listing.fetchMoreGo env fuel σ l amount skip).1 res = true)) := by
  rw [fetchMoreGo_noop env fuel σ l amount skip h, clone_eq σ l hw]
  constructor
  · intro i hi
    cases hm : l._more with
    | none => simp
    | some r => simp [storeRead_append_lt σ _ i hi]
  · intro res hres
    simp only [FetchResult.ok.injEq] at hres
    subst hres
    refine ⟨⟨[], by simp⟩, by simpa [Listing.itemsWf] using hw, ?_, ?_⟩
    · intro _
      simp only [List.length_nil, Nat.add_zero, sub_self]
      split
      · exact le_refl 0
      · have : (0 : Int) ≤ extraSlack l := by
          unfold extraSlack
          split <;> omega
        omega
    · intro hcount
      simp only [sub_self] at hcount
      have hfin : Listing.is_finished σ l = true := by
        rcases h with h | h
        · omega
        · exact h
      cases hm : l._more with
      | none =>
          simp only [hm, Option.map_none']
          simp only [Listing.is_finished, hm] at hfin ⊢
          exact hfin
      | some r =>
          simp only [hm, Option.map_some']
          simp only [Listing.is_finished, hm] at hfin ⊢
          rw [storeRead_append_self]
          exact hfin

/-- All four conclusions of the master lemma in the comment-tree case. -/
theorem go_main_comments (env : Env) (fuel : Nat) (σ : Store) (l : Listing) (amount : Int)
    (skip : Bool) (r : MoreRef) (hw : Listing.itemsWf l = true)
    (h : ¬(amount ≤ 0 ∨ Listing.is_finished σ l = true)) (hm : l._more = some r) :
    (∀ i, i < σ.length →
      storeRead (Listing.fetchMoreGo env fuel σ l amount skip).1 i = storeRead σ i) ∧
    (∀ res, (Listing.fetchMoreGo env fuel σ l amount skip).2.1 = FetchResult.ok res →
      (∃ t, res.items = l.items ++ t) ∧ Listing.itemsWf res = true ∧
      (EnvHonorsLimit env →
        (res.items.length : Int) - l.items.length ≤
          (if amount ≤ 0 then 0 else amount + extraSlack l)) ∧
      ((res.items.length : Int) - l.items.length < amount →
        Listing.is_finished (Listing.fetchMoreGo env fuel σ l amount skip).1 res = true)) := by
  rw [fetchMoreGo_comments env fuel σ l amount skip r h hm,
    fetch_more_comments_eq σ l amount skip r hw hm]
  have hamount : 0 < amount := by
    rcases not_or.mp h with ⟨h1, _⟩
    omega
  constructor
  · intro i hi
    exact storeRead_append_lt σ _ i hi
  · intro res hres
    simp only [FetchResult.ok.injEq] at hres
    subst hres
    refine ⟨⟨_, rfl⟩, ?_, ?_, ?_⟩
    · simp only [Listing.itemsWf] at hw ⊢
      refine elemsWf_append _ _ hw ?_
      intro e he
      rcases List.mem_map.mp he with ⟨a, _, rfl⟩
      rfl
    · intro _
      rw [if_neg (by omega)]
      have hslack : (0 : Int) ≤ extraSlack l := by
        unfold extraSlack
        split <;> omega
      have hlen : ((storeRead σ r).children.take amount.toNat).length ≤ amount.toNat :=
        le_trans (List.length_take_le _ _) (le_refl _)
      simp only [List.length_append, List.length_map]
      omega
    · intro hcount
      simp only [List.length_append, List.length_map] at hcount
      have hlt : ((storeRead σ r).children.take amount.toNat).length < amount.toNat := by
        omega
      have hK : (storeRead σ r).children.length < amount.toNat := by
        have := List.length_take amount.toNat (storeRead σ r).children
        omega
      have hdrop : ((storeRead σ r).children).drop
          ((storeRead σ r).children.take amount.toNat).length = [] := by
        apply List.eq_nil_of_length_eq_zero
        have := List.length_take amount.toNat (storeRead σ r).children
        rw [List.length_drop]
        omega
      simp only [Listing.is_finished, hdrop, storeRead_append_self]
      rfl

/-- Master lemma about fetchMoreGo on well formed listings in well formed
environments: (1) the store cells existing before the call are untouched;
and whenever the call returns a listing: (2) its items extend the original
items and stay well formed, (3) when the environment honors limits the number
of new items is bounded by the amount plus the comment-list slack, and (4) a
result with fewer new items than the requested amount is finished. -/
theorem go_main (env : Env) (hE : EnvWf env) :
    ∀ (fuel : Nat) (σ : Store) (l : Listing) (amount : Int) (skip : Bool),
      Listing.itemsWf l = true →
      (∀ i, i < σ.length →
        storeRead (Listing.fetchMoreGo env fuel σ l amount skip).1 i = storeRead σ i) ∧
      (∀ res, (Listing.fetchMoreGo env fuel σ l amount skip).2.1 = FetchResult.ok res →
        (∃ t, res.items = l.items ++ t) ∧ Listing.itemsWf res = true ∧
        (EnvHonorsLimit env →
          (res.items.length : Int) - l.items.length ≤
            (if amount ≤ 0 then 0 else amount + extraSlack l)) ∧
        ((res.items.length : Int) - l.items.length < amount →
          Listing.is_finished (Listing.fetchMoreGo env fuel σ l amount skip).1 res = true)) := by
  intro fuel
  induction fuel with
  | zero =>
      intro σ l amount skip hw
      by_cases h : amount ≤ 0 ∨ Listing.is_finished σ l = true
      · exact go_main_noop env 0 σ l amount skip hw h
      · cases hm : l._more with
        | some r => exact go_main_comments env 0 σ l amount skip r hw h hm
        | none =>
            rw [fetchMoreGo_zero_net env σ l amount skip h hm]
            exact ⟨fun i _ => rfl, fun res hres => by cases hres⟩
  | succ fuel ih =>
      intro σ l amount skip hw
      by_cases h : amount ≤ 0 ∨ Listing.is_finished σ l = true
      · exact go_main_noop env (fuel + 1) σ l amount skip hw h
      · cases hm : l._more with
        | some r => exact go_main_comments env (fuel + 1) σ l amount skip r hw h hm
        | none =>
            rw [fetchMoreGo_succ_net env fuel σ l amount skip h hm]
            cases hok : env (regularRequest l (if l._is_comment_list then amount + 1 else amount)) with
            | error e => exact ⟨fun i _ => rfl, fun res hres => by cases hres⟩
            | ok response =>
                rw [clone_eq σ l hw]
                simp only [hm, Option.map_none']
                have hwc : Listing.itemsWf
                    { l with
                      items := l.items ++ response.items
                      _more := none
                      before := response.before
                      after := response.after } = true := by
                  simp only [Listing.itemsWf] at hw ⊢
                  exact elemsWf_append _ _ hw (hE _ response hok)
                have IH := ih σ
                  { l with
                    items := l.items ++ response.items
                    _more := none
                    before := response.before
                    after := response.after }
                  (amount - response.items.length) skip hwc
                have hclen : ({ l with
                    items := l.items ++ response.items
                    _more := none
                    before := response.before
                    after := response.after } : Listing).items.length
                    = l.items.length + response.items.length := by simp
                constructor
                · intro i hi
                  exact IH.1 i hi
                · intro res hres
                  have hres' := IH.2 res hres
                  rcases hres' with ⟨⟨t, ht⟩, hwres, hbound, hexh⟩
                  simp only at ht
                  have hrlen : res.items.length
                      = l.items.length + (response.items.length + t.length) := by
                    rw [ht]
                    simp [Nat.add_assoc]
                  refine ⟨⟨response.items ++ t, by rw [ht, List.append_assoc]⟩, hwres, ?_, ?_⟩
                  · intro hL
                    have hpl := hL _ response hok
                    simp only [regularRequest] at hpl
                    have hb := hbound hL
                    rw [hclen, hrlen] at hb
                    rw [hrlen]
                    rw [if_neg (by rcases not_or.mp h with ⟨h1, _⟩; omega)]
                    cases hflag : l._is_comment_list with
                    | false =>
                        rw [hflag] at hpl
                        simp at hpl
                        have hslack : extraSlack l = 0 := by
                          simp [extraSlack, hflag]
                        have hslack2 : extraSlack
                            { l with
                              items := l.items ++ response.items
                              _more := none
                              before := response.before
                              after := response.after } = 0 := by
                          simp [extraSlack, hflag]
                        rw [hslack2] at hb
                        rw [hslack]
                        split at hb <;> push_cast at hb hpl ⊢ <;> omega
                    | true =>
                        rw [hflag] at hpl
                        simp at hpl
                        have hslack : extraSlack l = 1 := by
                          simp [extraSlack, hflag, hm]
                        have hslack2 : extraSlack
                            { l with
                              items := l.items ++ response.items
                              _more := none
                              before := response.before
                              after := response.after } = 1 := by
                          simp [extraSlack, hflag]
                        rw [hslack2] at hb
                        rw [hslack]
                        split at hb <;> push_cast at hb hpl ⊢ <;> omega
                  · intro hcount
                    apply hexh
                    rw [hclen, hrlen]
                    rw [hrlen] at hcount
                    push_cast at hcount ⊢
                    omega

/-! ## Shared helper: the short-circuit run in observable form -/

/-- A short-circuited fetchMoreGo returns an ok clone with an empty request
log; the clone agrees with the original on every observable field. -/
theorem go_noop_spec (env : Env) (fuel : Nat) (σ : Store) (l : Listing) (amount : Int)
    (skip : Bool) (hw : Listing.itemsWf l = true)
    (h : amount ≤ 0 ∨ Listing.is_finished σ l = true) :
    ∃ σ' res, Listing.fetchMoreGo env fuel σ l amount skip = (σ', FetchResult.ok res, []) ∧
      res.items = l.items ∧ res.after = l.after ∧ res.before = l.before ∧
      moreView σ' res = moreView σ l ∧ res._query = l._query ∧ res._show = l._show ∧
      res._method = l._method ∧ res._is_comment_list = l._is_comment_list ∧
      res._uri = l._uri ∧ res._limit = l._limit ∧ res._link_id = l._link_id := by
  rw [fetchMoreGo_noop env fuel σ l amount skip h, clone_eq σ l hw]
  cases hm : l._more with
  | none =>
      refine ⟨σ, { l with _more := none }, by simp, ?_⟩
      simp [moreView, hm]
  | some r =>
      refine ⟨σ ++ [storeRead σ r], { l with _more := some σ.length }, by simp, ?_⟩
      simp [moreView, hm, storeRead_append_self]

/-! ## The claims -/

/-- Claim C1, counterexample: a listing with a nonempty more node and an
absent source URI is not finished, yet the claimed disjunction (more empty OR
uri absent OR both cursors null) holds of it, so the claimed equivalence fails
at this listing. -/
theorem claim_C1_counterexample :
    ¬(Listing.is_finished storeOneMore listingMoreNoUri = true ↔
        (moreView storeOneMore listingMoreNoUri = some [] ∨
         listingMoreNoUri._uri = none ∨
         (listingMoreNoUri.after = some none ∧ listingMoreNoUri.before = some none))) := by
  decide

/-- Claim C1, amended: is_finished holds iff the more node exists and its
children sequence is empty, or the more node is absent and (the source URI is
absent, or both cursors are strictly null). -/
theorem claim_C1_amended (σ : Store) (l : Listing) :
    Listing.is_finished σ l = true ↔
      ((l._more ≠ none ∧ moreView σ l = some []) ∨
       (l._more = none ∧
         (l._uri = none ∨ (l.after = some none ∧ l.before = some none)))) := by
  cases hm : l._more with
  | none =>
      simp [Listing.is_finished, hm, moreView, Option.isNone_iff_eq_none]
  | some r =>
      simp [Listing.is_finished, hm, moreView, List.isEmpty_iff]

/-- Claim C8: calling fetch_more with a missing or non-numeric amount, or
fetch_until with a missing or non-numeric length, raises
InvalidMethodCallError synchronously: the store is untouched and the request
log is empty. -/
theorem claim_C8_invalid_call (env : Env) (fuel : Nat) (σ : Store) (l : Listing) (skip : Bool) :
    Listing.fetch_more env fuel σ l { amount := none, skip_replies := skip } =
      (σ, FetchResult.invalidCall "Failed to fetch Listing. (No amount specified.)", []) ∧
    Listing.fetch_until env fuel σ l none skip =
      (σ, FetchResult.invalidCall "Failed to fetch Listing. (No amount specified.)", []) :=
  ⟨rfl, rfl⟩

/-- Claim C10: without a more node and with a URI present, finishing requires
both cursors strictly null; an undefined cursor (never fetched) is not null,
so a freshly constructed listing with a URI and default cursors is not
finished. -/
theorem claim_C10_cursor_null (σ : Store) (l : Listing) (u : String)
    (hm : l._more = none) (hu : l._uri = some u) :
    (Listing.is_finished σ l = true ↔ (l.after = some none ∧ l.before = some none)) ∧
    ((l.after = none ∨ l.before = none) → Listing.is_finished σ l = false) := by
  constructor
  · simp [Listing.is_finished, hm, hu]
  · intro hc
    simp only [Listing.is_finished, hm, hu, Option.isNone_some, Bool.false_or]
    rcases hc with hc | hc <;> simp [hc]

/-- Claim C10, witness: a fresh listing with a URI and undefined cursors is
not finished, and the equivalence holds at it. -/
theorem claim_C10_witness :
    (Listing.is_finished [] listingFresh = true ↔
      (listingFresh.after = some none ∧ listingFresh.before = some none)) ∧
    Listing.is_finished [] listingFresh = false := by
  have h := claim_C10_cursor_null [] listingFresh "u" (by decide) (by decide)
  exact ⟨h.1, h.2 (Or.inl (by decide))⟩

/-- Claim C9, counterexample: the constructor only inspects the last child, so
a continuation placeholder in a non-final position survives into the publicly
visible element sequence. -/
theorem claim_C9_counterexample :
    (Listing.construct optionsLeadingMore).items.any Elem.isMoreNode = true ∧
    (Listing.construct optionsLeadingMore).items = [Elem.more 0, Elem.item "a"] := by
  decide

/-- Claim C9, amended: when the last child is a continuation placeholder the
constructor removes it, stores it as the more node, and sets the comment-list
flag; consequently, provided placeholders occur only in the last position of
the children, the element sequence of the constructed listing contains no
placeholder. -/
theorem claim_C9_amended (o : ListingOptions) :
    (∀ r, o.children.getLast? = some (Elem.more r) →
      (Listing.construct o).items = o.children.dropLast ∧
      (Listing.construct o)._more = some r ∧
      (Listing.construct o)._is_comment_list = true) ∧
    ((∀ e ∈ o.children.dropLast, Elem.isMoreNode e = false) →
      ∀ e ∈ (Listing.construct o).items, Elem.isMoreNode e = false) := by
  constructor
  · intro r hlast
    simp [Listing.construct, hlast]
  · intro hdrop e he
    rcases List.eq_nil_or_concat o.children with hnil | ⟨L, b, hconcat⟩
    · simp only [Listing.construct, hnil, List.getLast?_nil] at he
      simp at he
    · rw [List.concat_eq_append] at hconcat
      have hlast : o.children.getLast? = some b := by
        rw [hconcat]
        exact List.getLast?_concat L
      have hdrop' : o.children.dropLast = L := by
        rw [hconcat]
        exact List.dropLast_concat
      cases b with
      | more r =>
          have : (Listing.construct o).items = o.children.dropLast := by
            simp [Listing.construct, hlast]
          rw [this, hdrop'] at he
          exact hdrop e (by rw [hdrop']; exact he)
      | item s =>
          have : (Listing.construct o).items = o.children := by
            simp [Listing.construct, hlast]
          rw [this, hconcat] at he
          rcases List.mem_append.mp he with hL | hb
          · exact hdrop e (by rw [hdrop']; exact hL)
          · simp only [List.mem_singleton] at hb
            subst hb
            rfl

/-- Claim C9, witness: constructing from children ending in a placeholder
pops it into the more node, sets the comment-list flag, and leaves a
placeholder-free element sequence. -/
theorem claim_C9_witness :
    (Listing.construct optionsTrailingMore).items = [Elem.item "a"] ∧
    (Listing.construct optionsTrailingMore)._more = some 3 ∧
    (Listing.construct optionsTrailingMore)._is_comment_list = true ∧
    ∀ e ∈ (Listing.construct optionsTrailingMore).items, Elem.isMoreNode e = false := by
  have h := claim_C9_amended optionsTrailingMore
  have h1 := h.1 3 (by decide)
  refine ⟨?_, h1.2.1, h1.2.2, h.2 (by decide)⟩
  rw [h1.1]
  decide

/-- Claim C3: fetch_more with a nonpositive numeric amount, or on a finished
listing, returns an ok clone equal to the original (same items, same cursors,
same more-node content, same remaining fields) and issues zero network
requests. -/
theorem claim_C3_noop_clone (env : Env) (fuel : Nat) (σ : Store) (l : Listing)
    (amount : Int) (skip : Bool) (hw : Listing.itemsWf l = true)
    (h : amount ≤ 0 ∨ Listing.is_finished σ l = true) :
    ∃ σ' res,
      Listing.fetch_more env fuel σ l { amount := some amount, skip_replies := skip } =
        (σ', FetchResult.ok res, []) ∧
      res.items = l.items ∧ res.after = l.after ∧ res.before = l.before ∧
      moreView σ' res = moreView σ l ∧ res._query = l._query ∧ res._show = l._show ∧
      res._method = l._method ∧ res._is_comment_list = l._is_comment_list ∧
      res._uri = l._uri ∧ res._limit = l._limit ∧ res._link_id = l._link_id := by
  exact go_noop_spec env fuel σ l amount skip hw h

/-- Claim C3, witness: fetch_more(0) on a one-item listing, and fetch_more(5)
on a finished listing, both return an equal listing with an empty request
log. -/
theorem claim_C3_witness :
    ∃ σ' res,
      Listing.fetch_more envReject 3 [] listingDone { amount := some 5 } =
        (σ', FetchResult.ok res, []) ∧
      res.items = listingDone.items ∧ res.after = listingDone.after ∧
      res.before = listingDone.before ∧ moreView σ' res = moreView [] listingDone ∧
      res._query = listingDone._query ∧ res._show = listingDone._show ∧
      res._method = listingDone._method ∧
      res._is_comment_list = listingDone._is_comment_list ∧
      res._uri = listingDone._uri ∧ res._limit = listingDone._limit ∧
      res._link_id = listingDone._link_id :=
  claim_C3_noop_clone envReject 3 [] listingDone 5 false (by decide) (Or.inr (by decide))

/-- Claim C7: fetch_until with a numeric length N is definitionally fetch_more
with amount N minus the current length (same store, same outcome, same request
log); and when N is at most the current length, it issues no request and
returns a listing equal to the original. -/
theorem claim_C7_fetch_until (env : Env) (fuel : Nat) (σ : Store) (l : Listing)
    (N : Int) (skip : Bool) (hw : Listing.itemsWf l = true) :
    Listing.fetch_until env fuel σ l (some N) skip =
      Listing.fetch_more env fuel σ l
        { amount := some (N - (l.items.length : Int)), skip_replies := skip } ∧
    (N ≤ (l.items.length : Int) →
      ∃ σ' res,
        Listing.fetch_until env fuel σ l (some N) skip = (σ', FetchResult.ok res, []) ∧
        res.items = l.items ∧ res.after = l.after ∧ res.before = l.before ∧
        moreView σ' res = moreView σ l) := by
  constructor
  · rfl
  · intro hN
    have h := go_noop_spec env fuel σ l (N - (l.items.length : Int)) skip hw
      (Or.inl (by omega))
    rcases h with ⟨σ', res, heq, hitems, hafter, hbefore, hview, _⟩
    exact ⟨σ', res, heq, hitems, hafter, hbefore, hview⟩

/-- Claim C7, witness: fetch_until with target length 1 on a one-item listing
equals fetch_more(0) and issues no request. -/
theorem claim_C7_witness :
    Listing.fetch_until envReject 3 [] listingDone (some 1) false =
      Listing.fetch_more envReject 3 [] listingDone { amount := some 0 } ∧
    ∃ σ' res,
      Listing.fetch_until envReject 3 [] listingDone (some 1) false =
        (σ', FetchResult.ok res, []) ∧
      res.items = listingDone.items ∧ res.after = listingDone.after ∧
      res.before = listingDone.before ∧ moreView σ' res = moreView [] listingDone := by
  have h := claim_C7_fetch_until envReject 3 [] listingDone 1 false (by decide)
  exact ⟨h.1, h.2 (by decide)⟩

/-- envReject resolves no request. -/
theorem envReject_wf : EnvWf envReject := by
  intro r p h
  cases h

/-- envReject trivially honors limits. -/
theorem envReject_honors : EnvHonorsLimit envReject := by
  intro r p h
  cases h

/-- envOneItem returns placeholder-free pages. -/
theorem envOneItem_wf : EnvWf envOneItem := by
  intro r p h
  unfold envOneItem at h
  split at h
  · cases h
  · cases h
    intro e he
    simp only [List.mem_singleton] at he
    subst he
    rfl

/-- envOneItem honors every limit. -/
theorem envOneItem_honors : EnvHonorsLimit envOneItem := by
  intro r p h
  unfold envOneItem at h
  split at h
  · cases h
  · cases h
    show ((1 : Nat) : Int) ≤ r.limit
    omega

/-- envTwoItems returns placeholder-free pages. -/
theorem envTwoItems_wf : EnvWf envTwoItems := by
  intro r p h
  unfold envTwoItems at h
  split at h
  · cases h
  · cases h
    intro e he
    rcases List.mem_cons.mp he with rfl | he
    · rfl
    · simp only [List.mem_singleton] at he
      subst he
      rfl

/-- envTwoItems honors every limit. -/
theorem envTwoItems_honors : EnvHonorsLimit envTwoItems := by
  intro r p h
  unfold envTwoItems at h
  split at h
  · cases h
  · cases h
    show ((2 : Nat) : Int) ≤ r.limit
    omega

/-- Claim C4: a fetch_more call, whatever its outcome (ok, thrown invalid
call, rejected transport, or nontermination), leaves every preexisting
MoreNode cell of the store untouched; in particular the original listing's
more-node content is unchanged. All appending, cursor updates, and more-node
splicing happen on the freshly allocated clone. -/
theorem claim_C4_no_mutation (env : Env) (fuel : Nat) (σ : Store) (l : Listing)
    (opts : FetchOptions) (hE : EnvWf env) (hw : Listing.itemsWf l = true) :
    (∀ i, i < σ.length →
      storeRead (Listing.fetch_more env fuel σ l opts).1 i = storeRead σ i) ∧
    (∀ r, l._more = some r → r < σ.length →
      (storeRead (Listing.fetch_more env fuel σ l opts).1 r).children =
        (storeRead σ r).children) := by
  cases ha : opts.amount with
  | none =>
      constructor
      · intro i _
        simp [Listing.fetch_more, ha]
      · intro r _ _
        simp [Listing.fetch_more, ha]
  | some amount =>
      have hframe := (go_main env hE fuel σ l amount opts.skip_replies hw).1
      constructor
      · intro i hi
        simpa [Listing.fetch_more, ha] using hframe i hi
      · intro r _ hr
        have := hframe r hr
        simp only [Listing.fetch_more, ha]
        rw [this]

/-- Claim C4, witness: a comment-tree fetch that resolves two of three pending
ids leaves the original more node's cell with its three ids intact. -/
theorem claim_C4_witness :
    (∀ i, i < storeThreeIds.length →
      storeRead (Listing.fetch_more envReject 1 storeThreeIds listingThreeIds
        { amount := some 2 }).1 i = storeRead storeThreeIds i) ∧
    (∀ r, listingThreeIds._more = some r → r < storeThreeIds.length →
      (storeRead (Listing.fetch_more envReject 1 storeThreeIds listingThreeIds
        { amount := some 2 }).1 r).children = (storeRead storeThreeIds r).children) :=
  claim_C4_no_mutation envReject 1 storeThreeIds listingThreeIds
    { amount := some 2 } envReject_wf (by decide)

/-- Claim C6: on a non-finished well formed listing with a positive numeric
amount, a fetch_more run that returns a listing never shortens or reorders the
materialized items: the original items are a prefix of the result's items, in
order. -/
theorem claim_C6_monotone (env : Env) (fuel : Nat) (σ : Store) (l : Listing) (amount : Int)
    (skip : Bool) (res : Listing) (hE : EnvWf env) (hw : Listing.itemsWf l = true)
    (_hfin : Listing.is_finished σ l = false) (_h0 : 0 < amount)
    (hres : (Listing.fetch_more env fuel σ l
        { amount := some amount, skip_replies := skip }).2.1 = FetchResult.ok res) :
    l.items.length ≤ res.items.length ∧ ∃ t, res.items = l.items ++ t := by
  have hok := (go_main env hE fuel σ l amount skip hw).2 res
    (by simpa [Listing.fetch_more] using hres)
  rcases hok with ⟨⟨t, ht⟩, _⟩
  refine ⟨?_, t, ht⟩
  rw [ht]
  simp

/-- Claim C6, witness: fetching one item onto an empty listing extends it by
one, keeping the (empty) original prefix. -/
theorem claim_C6_witness :
    listingRegular.items.length ≤ resultOneFetch.items.length ∧
    ∃ t, resultOneFetch.items = listingRegular.items ++ t :=
  claim_C6_monotone envOneItem 1 [] listingRegular 1 false resultOneFetch
    envOneItem_wf (by decide) (by decide) (by decide) (by decide)

/-- Claim C5: on a well formed comment listing whose more node holds K pending
ids, fetch_more(m) with 0 < m < K resolves exactly the first m ids: at most m
new items are appended, the result's more node keeps the remaining ids, and
the residual count plus the appended count equals K, so no id is lost or
double-counted. -/
theorem claim_C5_comment_accounting (env : Env) (fuel : Nat) (σ : Store) (l : Listing)
    (r : MoreRef) (m : Int) (skip : Bool)
    (hw : Listing.itemsWf l = true) (hm : l._more = some r)
    (h0 : 0 < m) (hK : m < ((storeRead σ r).children.length : Int)) :
    ∃ σ' res log,
      Listing.fetch_more env fuel σ l { amount := some m, skip_replies := skip } =
        (σ', FetchResult.ok res, log) ∧
      res.items = l.items ++ ((storeRead σ r).children.take m.toNat).map Elem.item ∧
      ((res.items.length : Int) - l.items.length ≤ m) ∧
      moreView σ' res = some ((storeRead σ r).children.drop m.toNat) ∧
      ((storeRead σ r).children.drop m.toNat).length +
        (res.items.length - l.items.length) = (storeRead σ r).children.length := by
  have hne : ¬(m ≤ 0 ∨ Listing.is_finished σ l = true) := by
    rintro (hle | hfin)
    · omega
    · simp only [Listing.is_finished, hm, List.isEmpty_iff] at hfin
      rw [hfin] at hK
      simp at hK
      omega
  have hgo : Listing.fetch_more env fuel σ l { amount := some m, skip_replies := skip } =
      Listing._fetch_more_comments σ l m skip := by
    simp only [Listing.fetch_more]
    exact fetchMoreGo_comments env fuel σ l m skip r hne hm
  rw [hgo, fetch_more_comments_eq σ l m skip r hw hm]
  have htake : ((storeRead σ r).children.take m.toNat).length = m.toNat := by
    rw [List.length_take]
    omega
  refine ⟨_, _, _, rfl, rfl, ?_, ?_, ?_⟩
  · simp only [List.length_append, List.length_map, htake]
    push_cast
    omega
  · simp only [moreView, Option.map_some', storeRead_append_self, htake]
  · simp only [List.length_append, List.length_map, List.length_drop, htake]
    omega

/-- Claim C5, witness: with three pending ids and m = 2, two items are
resolved and one id remains, and 1 + 2 = 3. -/
theorem claim_C5_witness :
    ∃ σ' res log,
      Listing.fetch_more envReject 1 storeThreeIds listingThreeIds { amount := some 2 } =
        (σ', FetchResult.ok res, log) ∧
      res.items = listingThreeIds.items ++
        ((storeRead storeThreeIds 0).children.take (2 : Int).toNat).map Elem.item ∧
      ((res.items.length : Int) - listingThreeIds.items.length ≤ 2) ∧
      moreView σ' res = some ((storeRead storeThreeIds 0).children.drop (2 : Int).toNat) ∧
      ((storeRead storeThreeIds 0).children.drop (2 : Int).toNat).length +
        (res.items.length - listingThreeIds.items.length) =
        (storeRead storeThreeIds 0).children.length :=
  claim_C5_comment_accounting envReject 1 storeThreeIds listingThreeIds 0 2 false
    (by decide) (by decide) (by decide) (by decide)

/-- Claim C2, counterexample: the claim's bound "newly fetched items never
exceed amount" fails. A comment list paginated regularly requests amount + 1
items and appends everything the page returns: with amount = 1 against an
environment that honors every limit and returns two items, the result gains
two new items. -/
theorem claim_C2_counterexample :
    EnvWf envTwoItems ∧ EnvHonorsLimit envTwoItems ∧
    Listing.itemsWf listingCommentRegular = true ∧
    (Listing.fetch_more envTwoItems 1 [] listingCommentRegular { amount := some 1 }).2.1 =
      FetchResult.ok resultTwoItems ∧
    (resultTwoItems.items.length : Int) - listingCommentRegular.items.length = 2 := by
  exact ⟨envTwoItems_wf, envTwoItems_honors, by decide, by decide, by decide⟩

/-- Claim C2, amended: against an environment that honors limits, a fetch_more
run with positive numeric amount that returns a listing appends the newly
fetched items after the original items; the number of new items never exceeds
amount except on a comment list paginated regularly, where it may exceed
amount by at most one (the extra item requested to detect a trailing
continuation object); and a result with fewer than amount new items is
finished (the source is exhausted). -/
theorem claim_C2_amended (env : Env) (fuel : Nat) (σ : Store) (l : Listing) (amount : Int)
    (skip : Bool) (res : Listing)
    (hE : EnvWf env) (hL : EnvHonorsLimit env) (hw : Listing.itemsWf l = true)
    (h0 : 0 < amount)
    (hres : (Listing.fetch_more env fuel σ l
        { amount := some amount, skip_replies := skip }).2.1 = FetchResult.ok res) :
    (∃ t, res.items = l.items ++ t) ∧
    (res.items.length : Int) - l.items.length ≤ amount + extraSlack l ∧
    ((res.items.length : Int) - l.items.length < amount →
      Listing.is_finished
        (Listing.fetch_more env fuel σ l { amount := some amount, skip_replies := skip }).1
        res = true) := by
  have hok := (go_main env hE fuel σ l amount skip hw).2 res
    (by simpa [Listing.fetch_more] using hres)
  rcases hok with ⟨hext, _, hbound, hexh⟩
  refine ⟨hext, ?_, ?_⟩
  · have hb := hbound hL
    rw [if_neg (by omega)] at hb
    exact hb
  · intro hcount
    simpa [Listing.fetch_more] using hexh hcount

/-- Claim C2, amended, witness: fetching one item onto an empty non-comment
listing yields exactly one new item (within the bound, slack zero), and the
exhaustion implication holds vacuously. -/
theorem claim_C2_witness :
    (∃ t, resultOneFetch.items = listingRegular.items ++ t) ∧
    (resultOneFetch.items.length : Int) - listingRegular.items.length ≤
      1 + extraSlack listingRegular ∧
    ((resultOneFetch.items.length : Int) - listingRegular.items.length < 1 →
      Listing.is_finished
        (Listing.fetch_more envOneItem 1 [] listingRegular { amount := some 1 }).1
        resultOneFetch = true) :=
  claim_C2_amended envOneItem 1 [] listingRegular 1 false resultOneFetch
    envOneItem_wf envOneItem_honors (by decide) (by decide) (by decide)

end Snoowrap
